import Mathlib

/-!
Shallow embedding of the xnb-rs XNB content decoder (src/lib.rs and
src/tide.rs).  Byte streams are modelled as `List Nat` (each entry a byte),
Rust `u32` values as `Nat` reduced mod 2^32 where overflow matters, `i32`
as `Int`, Rust `String` as Lean `String`.  A fallible computation returns
`PR α`: `ok` with the value and the remaining stream, `err` for a
`Result::Err` returned to the caller, and `panic` for a Rust abort
(`assert!`, `assert_eq!`, `unreachable!`, out-of-bounds indexing or an
overflowing shift).
-/

namespace Xnb

/-- The `Error` enum of src/lib.rs (the `Decompress` variant is commented
out in the source). -/
inductive XError where
  | void
  | io
  | compressedXnb
  | unknownReader : String → XError
  | unrecognizedSurfaceFormat : Nat → XError
  | readerMismatch : String → String → XError
deriving DecidableEq, Repr

/-- Outcome of running a decoder on a byte stream: success with remaining
stream, a returned `Err`, or a Rust panic/abort. -/
inductive PR (α : Type) where
  | ok : α → List Nat → PR α
  | err : XError → PR α
  | panic : PR α
deriving DecidableEq, Repr

/-- Sequencing of stream decoders, propagating `err` and `panic` (the
behaviour of Rust's `?` operator and of panic unwinding). -/
def pbind {α β : Type} (x : PR α) (f : α → List Nat → PR β) : PR β :=
  match x with
  | .ok a s => f a s
  | .err e => .err e
  | .panic => .panic

/-- One byte from the stream, as `rdr.read_u8()`; end of input is an I/O
error. -/
def readU8 (s : List Nat) : PR Nat :=
  match s with
  | [] => .err .io
  | b :: rest => .ok (b % 256) rest

/-- Four bytes little-endian, as `rdr.read_u32::<LittleEndian>()`. -/
def readU32le (s : List Nat) : PR Nat :=
  match s with
  | b0 :: b1 :: b2 :: b3 :: rest =>
      .ok (b0 % 256 + (b1 % 256) * 256 + (b2 % 256) * 65536 +
        (b3 % 256) * 16777216) rest
  | _ => .err .io

/-- Four bytes little-endian reinterpreted as a signed 32-bit value, as
`rdr.read_i32::<LittleEndian>()`. -/
def readI32le (s : List Nat) : PR Int :=
  pbind (readU32le s) fun n rest =>
    .ok (if n < 2147483648 then (n : Int) else (n : Int) - 4294967296) rest

/-- Four bytes little-endian kept as the raw bit pattern of the `f32`, as
`rdr.read_f32::<LittleEndian>()` (no claim inspects float arithmetic, so
the bits are stored unchanged). -/
def readF32bits (s : List Nat) : PR Nat :=
  readU32le s

/-- Loop body of `read_7bit_encoded_int`: `result |= (byte & 0x7F) <<
bits_read`, continuing while bit 7 is set.  A shift by 32 or more is a
Rust shift-overflow panic. -/
def read7bitAux : List Nat → Nat → Nat → PR Nat
  | [], _, _ => .err .io
  | b :: rest, acc, bits =>
    if 32 ≤ bits then .panic
    else if b % 256 % 128 = b % 256 then
      .ok ((acc ||| ((b % 256 % 128) <<< bits)) % 4294967296) rest
    else
      read7bitAux rest ((acc ||| ((b % 256 % 128) <<< bits)) % 4294967296)
        (bits + 7)

/-- The variable-length unsigned integer decoder `read_7bit_encoded_int`
of src/lib.rs. -/
def read7bit (s : List Nat) : PR Nat :=
  read7bitAux s 0 0

/-- Character-accumulation loop of `read_string_with_length`: each byte is
widened into a `char` and pushed. -/
def readChars : Nat → List Nat → PR String
  | 0, s => .ok "" s
  | n + 1, s =>
    pbind (readU8 s) fun b s1 =>
      pbind (readChars n s1) fun str s2 =>
        .ok (String.mk (Char.ofNat b :: str.toList)) s2

/-- The function `read_string_with_length` of src/lib.rs: read `len`
bytes, widen each into a character, then `assert_eq!(s.len(), len)` where
Rust's `String::len` is the UTF-8 byte size.  A failing assertion is a
panic. -/
def read_string_with_length (len : Nat) (s : List Nat) : PR String :=
  pbind (readChars len s) fun str s2 =>
    if str.utf8ByteSize = len then .ok str s2 else .panic

/-- The function `read_string` of src/lib.rs: a varuint byte length
followed by that many widened bytes. -/
def read_string (s : List Nat) : PR String :=
  pbind (read7bit s) fun len s2 => read_string_with_length len s2

/-- The function `read_nullable` of src/lib.rs, parametrised by the inner
value decoder exactly as the Rust closure argument. -/
def read_nullable {α : Type} (value : List Nat → PR α) (s : List Nat) :
    PR (Option α) :=
  pbind (readU8 s) fun b s2 =>
    if b = 1 then
      match value s2 with
      | .ok v s3 => .ok (some v) s3
      | .err e => .err e
      | .panic => .panic
    else .ok none s2

/-- Bracket scan of `generic_types_from_reader`: walk the characters after
the first two of the backtick segment, tracking a signed depth `count`,
recording `i + 1` when a `[` is seen at depth 0 and `i` when a `]` brings
the depth back to 0. -/
def gtScan : List Char → Nat → Int → List Nat → List Nat → List Nat × List Nat
  | [], _, _, starts, ends => (starts, ends)
  | c :: cs, i, count, starts, ends =>
    if c = '[' then
      gtScan cs (i + 1) (count + 1)
        (if count = 0 then starts ++ [i + 1] else starts) ends
    else if c = ']' then
      gtScan cs (i + 1) (count - 1) starts
        (if count - 1 = 0 then ends ++ [i] else ends)
    else gtScan cs (i + 1) count starts ends

/-- Semantics of Rust's `str::split(sep)`: the successive separator-free
segments, with empty segments kept (`"a|"` gives `["a", ""]` and `""`
gives `[""]`). -/
def splitOnChar (sep : Char) : List Char → List (List Char)
  | [] => [[]]
  | c :: cs =>
    if c = sep then [] :: splitOnChar sep cs
    else
      match splitOnChar sep cs with
      | [] => [[c]]
      | g :: gs => (c :: g) :: gs

/-- The backtick character (code 96), written by code point. -/
def backtick : Char := Char.ofNat 96

/-- The function `generic_types_from_reader` of src/lib.rs.  `none` marks a
panic: slicing `args[2..]` out of range, or the `assert_eq!(starts.len(),
ends.len())` failing.  Only the segment between the first and second
backtick is scanned, because `name.split` yields successive segments. -/
def generic_types_from_reader (name : String) : Option (List String) :=
  match splitOnChar backtick name.toList with
  | [] => some []
  | [_] => some []
  | _ :: cs :: _ =>
    if cs.length < 2 then none
    else
      let p := gtScan (cs.drop 2) 0 0 [] []
      if p.1.length = p.2.length then
        some ((p.1.zip p.2).map fun q =>
          String.mk (((cs.drop (q.1 + 2)).take (q.2 - q.1)).takeWhile
            fun c => c ≠ ','))
      else none

/-- The `TypeReader` struct of src/lib.rs (reader table entry). -/
structure TypeReader where
  name : String
  version : Int
deriving DecidableEq, Repr

/-- A `Parse` impl of src/lib.rs: the `READER` constant together with the
`try_parse` body.  Rust resolves the impl statically; the embedding passes
it explicitly. -/
structure ParseImpl (α : Type) where
  reader : String
  tryParse : List TypeReader → List String → List Nat → PR α

/-- The function `read_with_reader` of src/lib.rs followed by
`Parse::parse`: compute the bare name (before any backtick and comma),
resolve the generic arguments (which may panic), compare with the impl's
`READER` constant, and on mismatch return `ReaderMismatch`. -/
def read_with_reader {α : Type} (impl : ParseImpl α) (name : String)
    (readers : List TypeReader) (s : List Nat) : PR α :=
  let main := String.mk
    (((splitOnChar backtick name.toList).headD []).takeWhile fun c => c ≠ ',')
  match generic_types_from_reader name with
  | none => .panic
  | some args =>
    if main = impl.reader then impl.tryParse readers args s
    else .err (.readerMismatch main impl.reader)

/-- The function `read_object` of src/lib.rs: read a varuint reference
index, `assert!(id != 0)` (panic on 0), then index `readers[id - 1]`
(panic when out of range) and dispatch on that reader's name. -/
def read_object {α : Type} (impl : ParseImpl α) (readers : List TypeReader)
    (s : List Nat) : PR α :=
  pbind (read7bit s) fun id s2 =>
    if id = 0 then .panic
    else if h : id - 1 < readers.length then
      read_with_reader impl (readers.get ⟨id - 1, h⟩).name readers s2
    else .panic

/-- The function `reader_from_type` of src/lib.rs. -/
def reader_from_type (typename : String) : Option String :=
  if typename = "System.Int32" then
    some "Microsoft.Xna.Framework.Content.Int32Reader"
  else if typename = "System.Char" then
    some "Microsoft.Xna.Framework.Content.CharReader"
  else if typename = "Microsoft.Xna.Framework.Vector3" then
    some "Microsoft.Xna.Framework.Content.Vector3Reader"
  else if typename = "Microsoft.Xna.Framework.Rectangle" then
    some "Microsoft.Xna.Framework.Content.RectangleReader"
  else none

/-- The function `read_dictionary_member` of src/lib.rs. -/
def read_dictionary_member {α : Type} (impl : ParseImpl α)
    (typename : String) (readers : List TypeReader) (s : List Nat) : PR α :=
  match reader_from_type typename with
  | some r => read_with_reader impl r readers s
  | none => read_object impl readers s

/-- Element loop of `Vec::<T>::try_parse`: `count` iterations of
`read_dictionary_member(args[0], ..)`; evaluating `args[0]` on an empty
argument list is an out-of-bounds panic. -/
def readElems {α : Type} (elemImpl : ParseImpl α) (args : List String)
    (readers : List TypeReader) :
    Nat → List α → List Nat → PR (List α)
  | 0, acc, _s => .ok acc _s
  | n + 1, acc, s =>
    match args with
    | [] => .panic
    | a :: _ =>
      pbind (read_dictionary_member elemImpl a readers s) fun v s2 =>
        readElems elemImpl args readers n (acc ++ [v]) s2

/-- The body of `impl Parse for Vec<T>`: a fixed-width little-endian `u32`
element count, then `count` elements via `read_dictionary_member`. -/
def vecTryParse {α : Type} (elemImpl : ParseImpl α)
    (readers : List TypeReader) (args : List String) (s : List Nat) :
    PR (List α) :=
  pbind (readU32le s) fun count s2 =>
    readElems elemImpl args readers count [] s2

/-- The `ArrayReader` impl (`impl Parse for Vec<T>`). -/
def vecImpl {α : Type} (elemImpl : ParseImpl α) : ParseImpl (List α) where
  reader := "Microsoft.Xna.Framework.Content.ArrayReader"
  tryParse := fun readers args s => vecTryParse elemImpl readers args s

/-- The `Int32Reader` impl (`impl Parse for i32`). -/
def i32Impl : ParseImpl Int where
  reader := "Microsoft.Xna.Framework.Content.Int32Reader"
  tryParse := fun _ _ s => readI32le s

/-- Reader-table loop of `XNB::new`: `num_readers` entries, each a
varuint-length string followed by an `i32` version. -/
def xnbReadReaders : Nat → List TypeReader → List Nat → PR (List TypeReader)
  | 0, acc, s => .ok acc s
  | n + 1, acc, s =>
    pbind (read_string s) fun nm s1 =>
      pbind (readI32le s1) fun ver s2 =>
        xnbReadReaders n (acc ++ [⟨nm, ver⟩]) s2

/-- Tail of `XNB::new` after the reader table: read the shared-resource
count as a varuint, `assert_eq!(num_shared, 0)` (panic when nonzero), then
decode the primary asset via `read_object`. -/
def xnbAfterReaders {α : Type} (impl : ParseImpl α)
    (readers : List TypeReader) (s : List Nat) : PR α :=
  pbind (read7bit s) fun numShared s2 =>
    if numShared = 0 then read_object impl readers s2 else .panic

/-- The function `XNB::new` of src/lib.rs on an uncompressed payload
buffer (the returned struct's single field is the primary asset). -/
def xnbNew {α : Type} (impl : ParseImpl α) (buffer : List Nat) : PR α :=
  pbind (read7bit buffer) fun numReaders s1 =>
    pbind (xnbReadReaders numReaders [] s1) fun readers s2 =>
      xnbAfterReaders impl readers s2

/-- The `SurfaceFormat` enum of src/lib.rs. -/
inductive SurfaceFormat where
  | color | bgr565 | bgra5551 | bgra4444 | dxt1 | dxt3 | dxt5
  | normalizedByte2 | normalizedByte4 | rgba1010102 | rg32 | rgba64
  | alpha8 | single | vector2 | vector4 | halfSingle | halfVector2
  | halfVector4 | hdrBlendable
deriving DecidableEq, Repr

/-- The match arms of `SurfaceFormat::from`; `none` stands for the
`UnrecognizedSurfaceFormat` fall-through. -/
def surfaceFormatFrom (v : Nat) : Option SurfaceFormat :=
  if v = 0 then some .color
  else if v = 1 then some .bgr565
  else if v = 2 then some .bgra5551
  else if v = 3 then some .bgra4444
  else if v = 4 then some .dxt1
  else if v = 5 then some .dxt3
  else if v = 6 then some .dxt5
  else if v = 7 then some .normalizedByte2
  else if v = 8 then some .normalizedByte4
  else if v = 9 then some .rgba1010102
  else if v = 10 then some .rg32
  else if v = 11 then some .rgba64
  else if v = 12 then some .alpha8
  else if v = 13 then some .single
  else if v = 14 then some .vector2
  else if v = 15 then some .vector4
  else if v = 16 then some .halfSingle
  else if v = 17 then some .halfVector2
  else if v = 18 then some .halfVector4
  else if v = 19 then some .hdrBlendable
  else none

/-- The `Texture2d` struct of src/lib.rs. -/
structure Texture2d where
  format : SurfaceFormat
  width : Nat
  height : Nat
  mip_data : List (List Nat)
deriving DecidableEq, Repr

/-- Semantics of `rdr.read(&mut data)` on a cursor for a buffer
`vec![0; n]`: copy `min(n, available)` bytes into the front of the
zero-initialised buffer and return without error; the unfilled tail stays
zero.  The number of bytes actually read is discarded by the caller. -/
def readFill (n : Nat) (s : List Nat) : List Nat × List Nat :=
  (s.take n ++ List.replicate (n - s.length) 0, s.drop n)

/-- Mip-level loop of `Texture2d::new`: each iteration reads a `u32` byte
size, allocates `vec![0; data_size]` and fills it with `rdr.read`. -/
def readMips : Nat → List (List Nat) → List Nat → PR (List (List Nat))
  | 0, acc, s => .ok acc s
  | n + 1, acc, s =>
    pbind (readU32le s) fun size s2 =>
      readMips n (acc ++ [(readFill size s2).1]) (readFill size s2).2

/-- The function `Texture2d::new` of src/lib.rs. -/
def texture2dNew (s : List Nat) : PR Texture2d :=
  pbind (readU32le s) fun fcode s1 =>
    match surfaceFormatFrom fcode with
    | none => .err (.unrecognizedSurfaceFormat fcode)
    | some format =>
      pbind (readU32le s1) fun w s2 =>
        pbind (readU32le s2) fun h s3 =>
          pbind (readU32le s3) fun mipCount s4 =>
            pbind (readMips mipCount [] s4) fun mips s5 =>
              .ok ⟨format, w, h, mips⟩ s5

/-- The `PropertyValue` enum of src/tide.rs; the float arm stores the raw
`f32` bit pattern. -/
inductive PropertyValue where
  | bool : Bool → PropertyValue
  | int : Int → PropertyValue
  | float : Nat → PropertyValue
  | string : String → PropertyValue
deriving DecidableEq, Repr

/-- The function `read_tide_string` of src/tide.rs: a fixed `u32` length
followed by `read_string_with_length`. -/
def read_tide_string (s : List Nat) : PR String :=
  pbind (readU32le s) fun len s2 => read_string_with_length len s2

/-- One property value of `read_tide_properties`, dispatched on the type
byte; any byte other than 0..3 hits `unreachable!("unexpected property
type")`. -/
def readPropValue (tag : Nat) (s : List Nat) : PR PropertyValue :=
  if tag = 0 then pbind (readU8 s) fun b s2 => .ok (.bool (b ≠ 0)) s2
  else if tag = 1 then pbind (readI32le s) fun v s2 => .ok (.int v) s2
  else if tag = 2 then pbind (readF32bits s) fun v s2 => .ok (.float v) s2
  else if tag = 3 then
    pbind (read_tide_string s) fun v s2 => .ok (.string v) s2
  else .panic

/-- Property loop of `read_tide_properties`: `num_properties` name/value
pairs. -/
def readProps : Nat → List (String × PropertyValue) → List Nat →
    PR (List (String × PropertyValue))
  | 0, acc, s => .ok acc s
  | n + 1, acc, s =>
    pbind (read_tide_string s) fun nm s1 =>
      pbind (readU8 s1) fun tag s2 =>
        pbind (readPropValue tag s2) fun v s3 =>
          readProps n (acc ++ [(nm, v)]) s3

/-- The function `read_tide_properties` of src/tide.rs.  The generic
`PropertyParse::parse` hook is instantiated with the identity, keeping the
raw name/value list. -/
def read_tide_properties (s : List Nat) :
    PR (List (String × PropertyValue)) :=
  pbind (readU32le s) fun n s2 => readProps n [] s2

/-- The `StaticTile` struct of src/tide.rs. -/
structure StaticTile where
  tilesheet : String
  idx : Nat
  pos : Nat × Nat
  blend_mode : Nat
  properties : List (String × PropertyValue)
deriving DecidableEq, Repr

/-- The `AnimatedTile` struct of src/tide.rs. -/
structure AnimatedTile where
  interval : Nat
  pos : Nat × Nat
  frames : List StaticTile
  properties : List (String × PropertyValue)
deriving DecidableEq, Repr

/-- The `Tile` enum of src/tide.rs. -/
inductive Tile where
  | static : StaticTile → Tile
  | animated : AnimatedTile → Tile
deriving DecidableEq, Repr

/-- The function `read_static_tile` of src/tide.rs: tile index, blend
mode, properties. -/
def read_static_tile (tilesheet : String) (pos : Nat × Nat)
    (s : List Nat) : PR StaticTile :=
  pbind (readU32le s) fun idx s1 =>
    pbind (readU8 s1) fun blend s2 =>
      pbind (read_tide_properties s2) fun props s3 =>
        .ok ⟨tilesheet, idx, pos, blend, props⟩ s3

/-- Inversion for `pbind` landing in `ok`. -/
theorem pbind_ok {α β : Type} {x : PR α} {f : α → List Nat → PR β} {b : β}
    {s2 : List Nat} (h : pbind x f = .ok b s2) :
    ∃ a s1, x = .ok a s1 ∧ f a s1 = .ok b s2 := by
  cases x with
  | ok a s1 => exact ⟨a, s1, rfl, h⟩
  | err e => simp [pbind] at h
  | panic => simp [pbind] at h

/-- A successful `readU8` consumes exactly one byte. -/
theorem readU8_len {s : List Nat} {b : Nat} {s2 : List Nat}
    (h : readU8 s = .ok b s2) : s2.length + 1 = s.length := by
  cases s with
  | nil => simp [readU8] at h
  | cons c cs => simp only [readU8, PR.ok.injEq] at h; simp [← h.2]

/-- A successful `readU32le` consumes exactly four bytes. -/
theorem readU32le_len {s : List Nat} {n : Nat} {s2 : List Nat}
    (h : readU32le s = .ok n s2) : s2.length + 4 = s.length := by
  rcases s with _ | ⟨b0, _ | ⟨b1, _ | ⟨b2, _ | ⟨b3, rest⟩⟩⟩⟩ <;>
    simp only [readU32le, PR.ok.injEq, reduceCtorEq] at h
  simp [← h.2]

/-- A successful `readI32le` does not lengthen the stream. -/
theorem readI32le_len {s : List Nat} {v : Int} {s2 : List Nat}
    (h : readI32le s = .ok v s2) : s2.length ≤ s.length := by
  obtain ⟨a, s1, hx, hf⟩ := pbind_ok h
  obtain ⟨-, rfl⟩ := PR.ok.inj hf
  have := readU32le_len hx
  omega

/-- A successful `readChars` does not lengthen the stream. -/
theorem readChars_len {n : Nat} {s : List Nat} {str : String}
    {s2 : List Nat} (h : readChars n s = .ok str s2) :
    s2.length ≤ s.length := by
  induction n generalizing s str s2 with
  | zero => obtain ⟨-, rfl⟩ := PR.ok.inj h; exact le_rfl
  | succ k ih =>
    obtain ⟨b, s1, hx, hf⟩ := pbind_ok h
    obtain ⟨str1, s1b, hy, hg⟩ := pbind_ok hf
    obtain ⟨-, rfl⟩ := PR.ok.inj hg
    have h1 := readU8_len hx
    have h2 := ih hy
    omega

/-- A successful `read_string_with_length` does not lengthen the
stream. -/
theorem read_string_with_length_len {n : Nat} {s : List Nat} {str : String}
    {s2 : List Nat} (h : read_string_with_length n s = .ok str s2) :
    s2.length ≤ s.length := by
  obtain ⟨a, s1, hx, hf⟩ := pbind_ok h
  split at hf
  · obtain ⟨-, rfl⟩ := PR.ok.inj hf; exact readChars_len hx
  · simp at hf

/-- A successful `read_tide_string` strictly shortens the stream. -/
theorem read_tide_string_len {s : List Nat} {str : String} {s2 : List Nat}
    (h : read_tide_string s = .ok str s2) : s2.length < s.length := by
  obtain ⟨a, s1, hx, hf⟩ := pbind_ok h
  have h1 := readU32le_len hx
  have h2 := read_string_with_length_len hf
  omega

/-- A successful `readPropValue` does not lengthen the stream. -/
theorem readPropValue_len {tag : Nat} {s : List Nat} {v : PropertyValue}
    {s2 : List Nat} (h : readPropValue tag s = .ok v s2) :
    s2.length ≤ s.length := by
  unfold readPropValue at h
  split at h
  · obtain ⟨a, s1, hx, hf⟩ := pbind_ok h
    obtain ⟨-, rfl⟩ := PR.ok.inj hf
    have := readU8_len hx; omega
  split at h
  · obtain ⟨a, s1, hx, hf⟩ := pbind_ok h
    obtain ⟨-, rfl⟩ := PR.ok.inj hf
    exact readI32le_len hx
  split at h
  · obtain ⟨a, s1, hx, hf⟩ := pbind_ok h
    obtain ⟨-, rfl⟩ := PR.ok.inj hf
    unfold readF32bits at hx
    have := readU32le_len hx; omega
  split at h
  · obtain ⟨a, s1, hx, hf⟩ := pbind_ok h
    obtain ⟨-, rfl⟩ := PR.ok.inj hf
    exact le_of_lt (read_tide_string_len hx)
  · simp at h

/-- A successful `readProps` does not lengthen the stream. -/
theorem readProps_len {n : Nat} {acc : List (String × PropertyValue)}
    {s : List Nat} {ps : List (String × PropertyValue)} {s2 : List Nat}
    (h : readProps n acc s = .ok ps s2) : s2.length ≤ s.length := by
  induction n generalizing acc s ps s2 with
  | zero => obtain ⟨-, rfl⟩ := PR.ok.inj h; exact le_rfl
  | succ k ih =>
    obtain ⟨nm, s1, hx, hf⟩ := pbind_ok h
    obtain ⟨tag, s1b, hy, hg⟩ := pbind_ok hf
    obtain ⟨v, s1c, hz, hw⟩ := pbind_ok hg
    have h1 := read_tide_string_len hx
    have h2 := readU8_len hy
    have h3 := readPropValue_len hz
    have h4 := ih hw
    omega

/-- A successful `read_tide_properties` does not lengthen the stream. -/
theorem read_tide_properties_len {s : List Nat}
    {ps : List (String × PropertyValue)} {s2 : List Nat}
    (h : read_tide_properties s = .ok ps s2) : s2.length ≤ s.length := by
  obtain ⟨n, s1, hx, hf⟩ := pbind_ok h
  have h1 := readU32le_len hx
  have h2 := readProps_len hf
  omega

/-- A successful `read_static_tile` strictly shortens the stream. -/
theorem read_static_tile_len {sheet : String} {pos : Nat × Nat}
    {s : List Nat} {t : StaticTile} {s2 : List Nat}
    (h : read_static_tile sheet pos s = .ok t s2) :
    s2.length < s.length := by
  obtain ⟨idx, s1, hx, hf⟩ := pbind_ok h
  obtain ⟨blend, s1b, hy, hg⟩ := pbind_ok hf
  obtain ⟨props, s1c, hz, hw⟩ := pbind_ok hg
  obtain ⟨-, rfl⟩ := PR.ok.inj hw
  have h1 := readU32le_len hx
  have h2 := readU8_len hy
  have h3 := read_tide_properties_len hz
  omega

/-- One iteration of the frame loop inside the `'A'` (animated tile)
branch of `read_tide`, after the sub-tag byte `t` has been read: `'T'`
(0x54) reads a tilesheet name, `'S'` (0x53) reads one frame via
`read_static_tile` (panicking on `tileset.clone().unwrap()` when no
tilesheet has been seen), and any other sub-tag hits
`unreachable!("unexpected animated frame type")`.  The result is the
updated carried tilesheet and the frame read, if any. -/
def frameStep (x y : Nat) (ts : Option String) (t : Nat)
    (rest : List Nat) : PR (Option String × Option StaticTile) :=
  if t % 256 = 84 then
    pbind (read_tide_string rest) fun str s2 => .ok (some str, none) s2
  else if t % 256 = 83 then
    match ts with
    | none => .panic
    | some sheet =>
      pbind (read_static_tile sheet (x, y) rest) fun tile s2 =>
        .ok (ts, some tile) s2
  else .panic

/-- A successful `frameStep` strictly shortens the stream. -/
theorem frameStep_len {x y : Nat} {ts : Option String} {t : Nat}
    {rest : List Nat} {r : Option String × Option StaticTile}
    {s2 : List Nat} (h : frameStep x y ts t rest = .ok r s2) :
    s2.length < rest.length := by
  unfold frameStep at h
  split at h
  · obtain ⟨a, s1, hx, hf⟩ := pbind_ok h
    obtain ⟨-, rfl⟩ := PR.ok.inj hf
    exact read_tide_string_len hx
  split at h
  · split at h
    · simp at h
    · obtain ⟨a, s1, hx, hf⟩ := pbind_ok h
      obtain ⟨-, rfl⟩ := PR.ok.inj hf
      exact read_static_tile_len hx
  · simp at h

/-- Frame loop of the `'A'` branch of `read_tide`: while
`frame < frame_count`, read a sub-tag byte and run `frameStep`; a `'T'`
sub-tag updates the carried tilesheet without advancing `frame`, an `'S'`
sub-tag appends a frame and advances `frame` by one. -/
def readFrames (frameCount frame x y : Nat) (ts : Option String)
    (acc : List StaticTile) (s : List Nat) :
    PR (List StaticTile × Option String) :=
  if frame < frameCount then
    match s with
    | [] => .err .io
    | t :: rest =>
      match hF : frameStep x y ts t rest with
      | .ok (ts2, none) s2 => readFrames frameCount frame x y ts2 acc s2
      | .ok (ts2, some tile) s2 =>
        readFrames frameCount (frame + 1) x y ts2 (acc ++ [tile]) s2
      | .err e => .err e
      | .panic => .panic
  else .ok (acc, ts) s
termination_by s.length
decreasing_by
  · have := frameStep_len hF; simp; omega
  · have := frameStep_len hF; simp; omega

/-- A successful `readFrames` does not lengthen the stream (stated with an
explicit bound for strong induction). -/
theorem readFrames_len_aux (N : Nat) :
    ∀ {fc f x y : Nat} {ts : Option String} {acc : List StaticTile}
      {s : List Nat} {r : List StaticTile × Option String} {s2 : List Nat},
      s.length ≤ N → readFrames fc f x y ts acc s = .ok r s2 →
      s2.length ≤ s.length := by
  induction N with
  | zero =>
    intro fc f x y ts acc s r s2 hN h
    cases s with
    | nil =>
      rw [readFrames.eq_def] at h
      split at h
      · simp at h
      · obtain ⟨-, rfl⟩ := PR.ok.inj h; exact le_rfl
    | cons t rest => simp at hN
  | succ k ih =>
    intro fc f x y ts acc s r s2 hN h
    rw [readFrames.eq_def] at h
    split at h
    · split at h
      · exact absurd h (by simp)
      · split at h
        all_goals first
          | exact absurd h (by simp)
          | (rename_i hF
             have h1 := frameStep_len hF
             have h2 := ih (by simp at hN ⊢; omega) h
             simp only [List.length_cons]
             omega)
    · obtain ⟨-, rfl⟩ := PR.ok.inj h; exact le_rfl

/-- A successful `readFrames` does not lengthen the stream. -/
theorem readFrames_len {fc f x y : Nat} {ts : Option String}
    {acc : List StaticTile} {s : List Nat}
    {r : List StaticTile × Option String} {s2 : List Nat}
    (h : readFrames fc f x y ts acc s = .ok r s2) :
    s2.length ≤ s.length :=
  readFrames_len_aux s.length le_rfl h

/-- One iteration of the tile-stream loop of `read_tide` (the
`while x < layer_w` body), after the tag byte `t` has been read.  The
result carries the updated tilesheet context, the tile emitted (if any)
and the amount added to `x`: `'T'` (0x54) reads a tilesheet name and adds
0, `'S'` (0x53) reads a static tile at `(x, y)` and adds 1, `'N'` (0x4E)
reads a `u32` run length `n` and adds `n`, `'A'` (0x41) reads interval,
frame count, the frame loop and the animated tile's properties, emitting
an animated tile and adding 1; any other tag hits
`unreachable!("unexpected frame type")`. -/
def scanStep (x y : Nat) (ts : Option String) (t : Nat) (rest : List Nat) :
    PR (Option String × Option Tile × Nat) :=
  if t % 256 = 84 then
    pbind (read_tide_string rest) fun str s2 => .ok (some str, none, 0) s2
  else if t % 256 = 83 then
    match ts with
    | none => .panic
    | some sheet =>
      pbind (read_static_tile sheet (x, y) rest) fun tile s2 =>
        .ok (ts, some (.static tile), 1) s2
  else if t % 256 = 78 then
    pbind (readU32le rest) fun n s2 => .ok (ts, none, n) s2
  else if t % 256 = 65 then
    pbind (readU32le rest) fun interval s2 =>
      pbind (readU32le s2) fun frameCount s3 =>
        pbind (readFrames frameCount 0 x y ts [] s3) fun fr s4 =>
          pbind (read_tide_properties s4) fun props s5 =>
            .ok (fr.2, some (.animated ⟨interval, (x, y), fr.1, props⟩), 1)
              s5
  else .panic

/-- A successful `scanStep` strictly shortens the stream. -/
theorem scanStep_len {x y : Nat} {ts : Option String} {t : Nat}
    {rest : List Nat} {r : Option String × Option Tile × Nat}
    {s2 : List Nat} (h : scanStep x y ts t rest = .ok r s2) :
    s2.length < rest.length := by
  unfold scanStep at h
  split at h
  · obtain ⟨a, s1, hx, hf⟩ := pbind_ok h
    obtain ⟨-, rfl⟩ := PR.ok.inj hf
    exact read_tide_string_len hx
  split at h
  · split at h
    · simp at h
    · obtain ⟨a, s1, hx, hf⟩ := pbind_ok h
      obtain ⟨-, rfl⟩ := PR.ok.inj hf
      exact read_static_tile_len hx
  split at h
  · obtain ⟨a, s1, hx, hf⟩ := pbind_ok h
    obtain ⟨-, rfl⟩ := PR.ok.inj hf
    have := readU32le_len hx
    omega
  split at h
  · obtain ⟨a, s1, hx, hf⟩ := pbind_ok h
    obtain ⟨a2, s1b, hy, hg⟩ := pbind_ok hf
    obtain ⟨fr, s1c, hz, hw⟩ := pbind_ok hg
    obtain ⟨props, s1d, hv, hu⟩ := pbind_ok hw
    obtain ⟨-, rfl⟩ := PR.ok.inj hu
    have e1 := readU32le_len hx
    have e2 := readU32le_len hy
    have e3 := readFrames_len hz
    have e4 := read_tide_properties_len hv
    omega
  · simp at h

/-- Tile-stream scan of one row of a layer in `read_tide`: the
`while x < layer_w` loop.  `ts` is the carried tilesheet context (the
mutable `tileset` variable), `acc` the tiles pushed so far.  On an `'N'`
run the addition `x += n` is a `u32` addition, so a sum reaching 2^32 is
an overflow panic. -/
def scanLayerX (w x y : Nat) (ts : Option String) (acc : List Tile)
    (s : List Nat) : PR (List Tile × Option String) :=
  if x < w then
    match s with
    | [] => .err .io
    | t :: rest =>
      match hX : scanStep x y ts t rest with
      | .ok (ts2, otile, adv) s2 =>
        if x + adv < 4294967296 then
          scanLayerX w (x + adv) y ts2 (acc ++ otile.toList) s2
        else .panic
      | .err e => .err e
      | .panic => .panic
  else .ok (acc, ts) s
termination_by s.length
decreasing_by
  have := scanStep_len hX; simp; omega

/-- Row loop of a layer in `read_tide`: the `while y < layer_h` loop,
running the tile-stream scan once per row with `x` reset to 0; tiles and
the tilesheet context persist across rows. -/
def scanLayerY (w h y : Nat) (ts : Option String) (acc : List Tile)
    (s : List Nat) : PR (List Tile × Option String) :=
  if y < h then
    match scanLayerX w 0 y ts acc s with
    | .ok (acc2, ts2) s2 => scanLayerY w h (y + 1) ts2 acc2 s2
    | .err e => .err e
    | .panic => .panic
  else .ok (acc, ts) s
termination_by h - y

/-- The tilemap sub-decoder of `read_tide` for one layer of size
`w × h`: scan the layer's tile stream from `(0, 0)` with no tilesheet
context and no tiles. -/
def scanLayer (w h : Nat) (s : List Nat) : PR (List Tile × Option String) :=
  scanLayerY w h 0 none [] s

/-- Unfolding: the frame loop stops once `frame` reaches `frame_count`. -/
theorem readFrames_stop {fc f x y : Nat} {ts : Option String}
    {acc : List StaticTile} {s : List Nat} (h : ¬ f < fc) :
    readFrames fc f x y ts acc s = .ok (acc, ts) s := by
  rw [readFrames.eq_def]
  simp [h]

/-- Unfolding: a `'T'` sub-tag iteration updates the tilesheet context and
leaves `frame` unchanged. -/
theorem readFrames_step_none {fc f x y : Nat} {ts ts2 : Option String}
    {acc : List StaticTile} {t : Nat} {rest s2 : List Nat} (h : f < fc)
    (hs : frameStep x y ts t rest = .ok (ts2, none) s2) :
    readFrames fc f x y ts acc (t :: rest) =
      readFrames fc f x y ts2 acc s2 := by
  rw [readFrames.eq_def]
  simp only [if_pos h]
  split <;> rename_i hF <;> rw [hs] at hF <;> simp_all

/-- Unfolding: an `'S'` sub-tag iteration appends the frame and advances
`frame` by one. -/
theorem readFrames_step_some {fc f x y : Nat} {ts ts2 : Option String}
    {acc : List StaticTile} {tile : StaticTile} {t : Nat}
    {rest s2 : List Nat} (h : f < fc)
    (hs : frameStep x y ts t rest = .ok (ts2, some tile) s2) :
    readFrames fc f x y ts acc (t :: rest) =
      readFrames fc (f + 1) x y ts2 (acc ++ [tile]) s2 := by
  rw [readFrames.eq_def]
  simp only [if_pos h]
  split <;> rename_i hF <;> rw [hs] at hF <;> simp_all

/-- Unfolding: a panicking sub-tag step aborts the frame loop. -/
theorem readFrames_step_panic {fc f x y : Nat} {ts : Option String}
    {acc : List StaticTile} {t : Nat} {rest : List Nat} (h : f < fc)
    (hs : frameStep x y ts t rest = .panic) :
    readFrames fc f x y ts acc (t :: rest) = .panic := by
  rw [readFrames.eq_def]
  simp only [if_pos h]
  split <;> rename_i hF <;> rw [hs] at hF <;> simp_all

/-- Unfolding: the row scan stops once `x` reaches the layer width. -/
theorem scanLayerX_stop {w x y : Nat} {ts : Option String}
    {acc : List Tile} {s : List Nat} (h : ¬ x < w) :
    scanLayerX w x y ts acc s = .ok (acc, ts) s := by
  rw [scanLayerX.eq_def]
  simp [h]

/-- Unfolding: with `x < w`, an exhausted stream is an I/O error. -/
theorem scanLayerX_nil {w x y : Nat} {ts : Option String}
    {acc : List Tile} (h : x < w) :
    scanLayerX w x y ts acc [] = .err .io := by
  rw [scanLayerX.eq_def]
  simp [h]

/-- Unfolding: one successful scan iteration appends the emitted tile (if
any) and advances `x` by the step's advance amount. -/
theorem scanLayerX_step {w x y : Nat} {ts ts2 : Option String}
    {acc : List Tile} {otile : Option Tile} {adv t : Nat}
    {rest s2 : List Nat} (h : x < w)
    (hs : scanStep x y ts t rest = .ok (ts2, otile, adv) s2)
    (ho : x + adv < 4294967296) :
    scanLayerX w x y ts acc (t :: rest) =
      scanLayerX w (x + adv) y ts2 (acc ++ otile.toList) s2 := by
  rw [scanLayerX.eq_def]
  simp only [if_pos h]
  split <;> rename_i hF <;> rw [hs] at hF <;> simp_all [ho]

/-- Unfolding: a panicking scan step aborts the row scan. -/
theorem scanLayerX_step_panic {w x y : Nat} {ts : Option String}
    {acc : List Tile} {t : Nat} {rest : List Nat} (h : x < w)
    (hs : scanStep x y ts t rest = .panic) :
    scanLayerX w x y ts acc (t :: rest) = .panic := by
  rw [scanLayerX.eq_def]
  simp only [if_pos h]
  split <;> rename_i hF <;> rw [hs] at hF <;> simp_all

/-- Unfolding: the row loop stops once `y` reaches the layer height. -/
theorem scanLayerY_stop {w hh y : Nat} {ts : Option String}
    {acc : List Tile} {s : List Nat} (h : ¬ y < hh) :
    scanLayerY w hh y ts acc s = .ok (acc, ts) s := by
  rw [scanLayerY.eq_def]
  simp [h]

/-- Unfolding: one row is scanned with `x` reset to 0, carrying tiles and
tilesheet context into the next row. -/
theorem scanLayerY_step {w hh y : Nat} {ts ts2 : Option String}
    {acc acc2 : List Tile} {s s2 : List Nat} (h : y < hh)
    (hx : scanLayerX w 0 y ts acc s = .ok (acc2, ts2) s2) :
    scanLayerY w hh y ts acc s = scanLayerY w hh (y + 1) ts2 acc2 s2 := by
  rw [scanLayerY.eq_def]
  simp only [if_pos h]
  split <;> rename_i hF <;> rw [hx] at hF <;> simp_all

/-- C2 counterexample: on the payload `[0, 1]` (no readers, shared count
1) `XNB::new` panics at `assert_eq!(num_shared, 0)`; no error value — in
particular no `UnsupportedSharedResources` value, which does not exist in
the `Error` enum — is returned to the caller. -/
theorem c2_counterexample :
    xnbNew i32Impl [0, 1] = .panic ∧
      ¬∃ e, xnbNew i32Impl [0, 1] = .err e := by
  have h1 : xnbNew i32Impl [0, 1] = .panic := by decide
  refine ⟨h1, ?_⟩
  rintro ⟨e, he⟩
  rw [h1] at he
  exact PR.noConfusion he

/-- C2 (amended): whenever the shared-resource count read after the
reader table is nonzero, `XNB::new` panics via `assert_eq!(num_shared,
0)` instead of returning an error. -/
theorem c2_nonzero_shared_panics {α : Type} (impl : ParseImpl α)
    (readers : List TypeReader) (s s2 : List Nat) (n : Nat)
    (h : read7bit s = .ok n s2) (hn : n ≠ 0) :
    xnbAfterReaders impl readers s = .panic := by
  unfold xnbAfterReaders
  rw [h]
  simp [pbind, hn]

/-- C2 witness: a shared-resource count of 1 panics. -/
theorem c2_witness : xnbAfterReaders i32Impl [] [1] = .panic :=
  c2_nonzero_shared_panics i32Impl [] [1] [] 1 (by decide) (by decide)

/-- C3 counterexample: `read_object` panics on reference index 0
(`assert!(id != 0)`) instead of yielding an absent value, and panics on an
index exceeding the reader-table length (out-of-bounds `readers[id - 1]`)
instead of returning an error. -/
theorem c3_counterexample :
    read_object i32Impl [] [0] = .panic ∧
      read_object i32Impl [] [1] = .panic ∧
      ¬∃ e, read_object i32Impl [] [1] = .err e := by
  have h1 : read_object i32Impl [] [0] = .panic := by decide
  have h2 : read_object i32Impl [] [1] = .panic := by decide
  refine ⟨h1, h2, ?_⟩
  rintro ⟨e, he⟩
  rw [h2] at he
  exact PR.noConfusion he

/-- C3 (amended): `read_object` panics on a zero reference index and on
an index greater than the reader-table length; neither case returns an
error or an absent value. -/
theorem c3_read_object_asserts {α : Type} (impl : ParseImpl α)
    (readers : List TypeReader) (s s2 : List Nat) (id : Nat)
    (h : read7bit s = .ok id s2) :
    (id = 0 → read_object impl readers s = .panic) ∧
      (readers.length < id → read_object impl readers s = .panic) := by
  constructor
  · intro h0
    unfold read_object
    rw [h]
    simp [pbind, h0]
  · intro hgt
    unfold read_object
    rw [h]
    have h0 : ¬ id = 0 := by omega
    have h1 : ¬ id - 1 < readers.length := by omega
    simp [pbind, h0, h1]

/-- C3 witness: index 0 and an out-of-range index both panic on an empty
reader table. -/
theorem c3_witness :
    read_object i32Impl [] [0, 9] = .panic ∧
      read_object i32Impl [] [2, 9] = .panic :=
  ⟨(c3_read_object_asserts i32Impl [] [0, 9] [9] 0 (by decide)).1 rfl,
   (c3_read_object_asserts i32Impl [] [2, 9] [9] 2 (by decide)).2
     (by decide)⟩

/-- C4: on the claim's own example
`"Foo\x603[...]"`-style nested identity with an inner backtick, the
resolver panics at `assert_eq!(starts.len(), ends.len())` (the `none`
outcome) because `split` truncates the argument segment at the inner
backtick, instead of returning `["Bar", "Baz\x601[[Qux,Asm]]"]`; without
inner backticks the depth counter does handle nested brackets and inner
commas. -/
theorem c4_generic_types_resolver :
    generic_types_from_reader "Foo`2[[Bar,Asm],[Baz`1[[Qux,Asm]],Asm]]" =
        none ∧
      generic_types_from_reader "Foo`2[[Bar,Asm],[Baz,Asm]]" =
        some ["Bar", "Baz"] ∧
      generic_types_from_reader "Foo`1[[Bar[],Asm]]" = some ["Bar[]"] :=
  ⟨by decide, by decide, by decide⟩

/-- C5: `read_string_with_length` panics on a byte at or above 0x80 —
the widened character occupies two UTF-8 bytes, so the code's own
`assert_eq!(s.len(), len)` fails — while pure-ASCII input succeeds
byte-for-byte. -/
theorem c5_high_byte_assert_panics :
    read_string_with_length 1 [128] = .panic ∧
      read_string_with_length 2 [104, 105] = .ok "hi" [] :=
  ⟨by decide, by decide⟩

/-- C6: `Texture2d::new` does not fail on a short mip-data read: the
`rdr.read(&mut data)` return value is discarded, so a stream ending
before `data_size` bytes yields `Ok` with the buffer zero-padded to the
declared size (here 4 declared, 0 and 2 bytes available) instead of an
I/O error. -/
theorem c6_texture2d_short_read_zero_pads :
    texture2dNew
        [0, 0, 0, 0, 2, 0, 0, 0, 2, 0, 0, 0, 1, 0, 0, 0, 4, 0, 0, 0] =
        .ok ⟨.color, 2, 2, [[0, 0, 0, 0]]⟩ [] ∧
      texture2dNew
        [0, 0, 0, 0, 2, 0, 0, 0, 2, 0, 0, 0, 1, 0, 0, 0, 4, 0, 0, 0,
          9, 9] =
        .ok ⟨.color, 2, 2, [[9, 9, 0, 0]]⟩ [] :=
  ⟨by decide, by decide⟩

/-- Claim-side variant of the HomogeneousArray decoder, following the
claim's wording that the element count is read as a variable-length
base-128 unsigned integer (`read7bit`); the element loop is the code's. -/
def vecTryParseVaruintClaim {α : Type} (elemImpl : ParseImpl α)
    (readers : List TypeReader) (args : List String) (s : List Nat) :
    PR (List α) :=
  pbind (read7bit s) fun count s2 =>
    readElems elemImpl args readers count [] s2

/-- C9 counterexample: on count bytes `[1, 0, 0, 0]` followed by one
`i32` element, the code (fixed-width `u32` count) returns `[42]`, while
the claim's varuint-count reading returns a different result, so the
count is not read as a variable-length integer. -/
theorem c9_counterexample :
    (vecImpl i32Impl).tryParse [] ["System.Int32"]
        [1, 0, 0, 0, 42, 0, 0, 0] = .ok [42] [] ∧
      vecTryParseVaruintClaim i32Impl [] ["System.Int32"]
        [1, 0, 0, 0, 42, 0, 0, 0] = .ok [704643072] [0, 0, 0] ∧
      (vecImpl i32Impl).tryParse [] ["System.Int32"]
          [1, 0, 0, 0, 42, 0, 0, 0] ≠
        vecTryParseVaruintClaim i32Impl [] ["System.Int32"]
          [1, 0, 0, 0, 42, 0, 0, 0] :=
  ⟨by decide, by decide, by decide⟩

/-- C9 (amended): the HomogeneousArray decoder reads its element count as
a fixed-width 4-byte little-endian `u32`, then decodes that many elements
through `read_dictionary_member` with the resolved generic argument
list's head as element type name. -/
theorem c9_array_count_fixed_u32 {α : Type} (elemImpl : ParseImpl α)
    (readers : List TypeReader) (args : List String) (b0 b1 b2 b3 : Nat)
    (rest : List Nat) (a : String) (args2 : List String) (n : Nat)
    (acc : List α) (s : List Nat) :
    (vecImpl elemImpl).tryParse readers args
        (b0 :: b1 :: b2 :: b3 :: rest) =
      readElems elemImpl args readers
        (b0 % 256 + (b1 % 256) * 256 + (b2 % 256) * 65536 +
          (b3 % 256) * 16777216) [] rest ∧
      readElems elemImpl (a :: args2) readers (n + 1) acc s =
        pbind (read_dictionary_member elemImpl a readers s) fun v s2 =>
          readElems elemImpl (a :: args2) readers n (acc ++ [v]) s2 :=
  ⟨rfl, rfl⟩

/-- C10: in `read_nullable` any presence byte other than 1 yields `None`
with no further bytes consumed and without running the inner decoder,
while a presence byte of exactly 1 runs the inner decoder and wraps its
value in `Some`. -/
theorem c10_nullable_presence_byte :
    (∀ (α : Type) (value : List Nat → PR α) (b : Nat) (rest : List Nat),
        b % 256 ≠ 1 →
        read_nullable value (b :: rest) = .ok none rest) ∧
      ∀ (α : Type) (value : List Nat → PR α) (rest : List Nat),
        read_nullable value (1 :: rest) =
          pbind (value rest) fun v s3 => .ok (some v) s3 := by
  constructor
  · intro α value b rest hb
    unfold read_nullable readU8
    simp [pbind, hb]
  · intro α value rest
    unfold read_nullable readU8 pbind
    norm_num

/-- C10 witness: presence byte 0 yields `None` leaving the stream
untouched; presence byte 1 decodes the wrapped value. -/
theorem c10_witness :
    read_nullable readU8 [0, 7] = .ok none [7] ∧
      read_nullable readU8 [1, 7] = .ok (some 7) [] := by
  constructor
  · exact c10_nullable_presence_byte.1 Nat readU8 0 [7] (by decide)
  · rw [c10_nullable_presence_byte.2 Nat readU8 [7]]
    decide

/-- C7 counterexample: a tag byte outside {T, S, N, A} (here 0x58 'X')
makes the row scan hit `unreachable!` — a panic, not a returned
`MalformedTileTag` error (no such variant exists in the `Error` enum) —
and likewise for a sub-tag outside {T, S} inside an animated block. -/
theorem c7_counterexample :
    scanLayerX 1 0 0 none [] [88] = .panic ∧
      readFrames 1 0 0 0 none [] [88] = .panic ∧
      ¬∃ e, scanLayerX 1 0 0 none [] [88] = .err e := by
  have h1 : scanLayerX 1 0 0 none [] [88] = .panic :=
    scanLayerX_step_panic (by norm_num) (by decide)
  have h2 : readFrames 1 0 0 0 none [] [88] = .panic :=
    readFrames_step_panic (by norm_num) (by decide)
  refine ⟨h1, h2, ?_⟩
  rintro ⟨e, he⟩
  rw [h1] at he
  exact PR.noConfusion he

/-- C7 (amended): while scanning a layer's tile stream, a tag byte
outside {T, S, N, A} — and, inside an `'A'` block, a sub-tag outside
{T, S} — makes decoding panic at `unreachable!`, not return an error. -/
theorem c7_malformed_tag_panics :
    (∀ (w x y : Nat) (ts : Option String) (acc : List Tile) (t : Nat)
        (rest : List Nat), x < w → t % 256 ≠ 84 → t % 256 ≠ 83 →
        t % 256 ≠ 78 → t % 256 ≠ 65 →
        scanLayerX w x y ts acc (t :: rest) = .panic) ∧
      ∀ (fc f x y : Nat) (ts : Option String) (acc : List StaticTile)
        (t : Nat) (rest : List Nat), f < fc → t % 256 ≠ 84 →
        t % 256 ≠ 83 →
        readFrames fc f x y ts acc (t :: rest) = .panic := by
  constructor
  · intro w x y ts acc t rest hx h84 h83 h78 h65
    have hs : scanStep x y ts t rest = .panic := by
      unfold scanStep
      rw [if_neg h84, if_neg h83, if_neg h78, if_neg h65]
    exact scanLayerX_step_panic hx hs
  · intro fc f x y ts acc t rest hf h84 h83
    have hs : frameStep x y ts t rest = .panic := by
      unfold frameStep
      rw [if_neg h84, if_neg h83]
    exact readFrames_step_panic hf hs

/-- C7 witness: tag byte 0x5A 'Z' panics in the row scan and in the
animated-frame loop. -/
theorem c7_witness :
    scanLayerX 5 0 0 none [] [90] = .panic ∧
      readFrames 5 0 0 0 none [] [90] = .panic :=
  ⟨c7_malformed_tag_panics.1 5 0 0 none [] 90 [] (by norm_num) (by decide)
      (by decide) (by decide) (by decide),
   c7_malformed_tag_panics.2 5 0 0 0 none [] 90 [] (by norm_num)
      (by decide) (by decide)⟩

/-- C1: the layer 3×1 with tile stream `'T' "sheetA"`, `'S' tile0`,
`'N' 1`, `'S' tile2` decodes to exactly two static tiles at positions
(0, 0) and (2, 0), both on tilesheet "sheetA" and none at (1, 0); and in
general a `'T'` tag updates the tilesheet context without advancing the
scan position, `'S'` advances `x` by 1, and `'N'` advances `x` by its
`u32` run length. -/
theorem c1_tile_stream_scan :
    scanLayer 3 1
        [84, 6, 0, 0, 0, 115, 104, 101, 101, 116, 65,
         83, 0, 0, 0, 0, 0, 0, 0, 0, 0,
         78, 1, 0, 0, 0,
         83, 7, 0, 0, 0, 0, 0, 0, 0, 0] =
      .ok ([Tile.static ⟨"sheetA", 0, (0, 0), 0, []⟩,
            Tile.static ⟨"sheetA", 7, (2, 0), 0, []⟩], some "sheetA")
        [] ∧
      (∀ (w x y : Nat) (ts : Option String) (acc : List Tile)
          (rest : List Nat) (str : String) (s2 : List Nat),
          w < 4294967296 → x < w → read_tide_string rest = .ok str s2 →
          scanLayerX w x y ts acc (84 :: rest) =
            scanLayerX w x y (some str) acc s2) ∧
      (∀ (w x y : Nat) (sheet : String) (acc : List Tile)
          (rest : List Nat) (tile : StaticTile) (s2 : List Nat),
          w < 4294967296 → x < w →
          read_static_tile sheet (x, y) rest = .ok tile s2 →
          scanLayerX w x y (some sheet) acc (83 :: rest) =
            scanLayerX w (x + 1) y (some sheet)
              (acc ++ [Tile.static tile]) s2) ∧
      ∀ (w x y : Nat) (ts : Option String) (acc : List Tile)
        (rest : List Nat) (n : Nat) (s2 : List Nat),
        x < w → x + n < 4294967296 → readU32le rest = .ok n s2 →
        scanLayerX w x y ts acc (78 :: rest) =
          scanLayerX w (x + n) y ts acc s2 := by
  have hT : ∀ (w x y : Nat) (ts : Option String) (acc : List Tile)
      (rest : List Nat) (str : String) (s2 : List Nat),
      w < 4294967296 → x < w → read_tide_string rest = .ok str s2 →
      scanLayerX w x y ts acc (84 :: rest) =
        scanLayerX w x y (some str) acc s2 := by
    intro w x y ts acc rest str s2 hw hx hstr
    have hs : scanStep x y ts 84 rest = .ok (some str, none, 0) s2 := by
      unfold scanStep
      norm_num
      rw [hstr]
      rfl
    have h := @scanLayerX_step w x y ts (some str) acc none 0 84 rest s2
      hx hs (by omega)
    simpa using h
  have hS : ∀ (w x y : Nat) (sheet : String) (acc : List Tile)
      (rest : List Nat) (tile : StaticTile) (s2 : List Nat),
      w < 4294967296 → x < w →
      read_static_tile sheet (x, y) rest = .ok tile s2 →
      scanLayerX w x y (some sheet) acc (83 :: rest) =
        scanLayerX w (x + 1) y (some sheet)
          (acc ++ [Tile.static tile]) s2 := by
    intro w x y sheet acc rest tile s2 hw hx htile
    have hs : scanStep x y (some sheet) 83 rest =
        .ok (some sheet, some (Tile.static tile), 1) s2 := by
      unfold scanStep
      norm_num
      rw [htile]
      rfl
    have h := @scanLayerX_step w x y (some sheet) (some sheet) acc
      (some (Tile.static tile)) 1 83 rest s2 hx hs (by omega)
    simpa using h
  have hN : ∀ (w x y : Nat) (ts : Option String) (acc : List Tile)
      (rest : List Nat) (n : Nat) (s2 : List Nat),
      x < w → x + n < 4294967296 → readU32le rest = .ok n s2 →
      scanLayerX w x y ts acc (78 :: rest) =
        scanLayerX w (x + n) y ts acc s2 := by
    intro w x y ts acc rest n s2 hx ho hn32
    have hs : scanStep x y ts 78 rest = .ok (ts, none, n) s2 := by
      unfold scanStep
      norm_num
      rw [hn32]
      rfl
    have h := @scanLayerX_step w x y ts ts acc none n 78 rest s2 hx hs ho
    simpa using h
  refine ⟨?_, hT, hS, hN⟩
  have s1 := hT 3 0 0 none []
    [6, 0, 0, 0, 115, 104, 101, 101, 116, 65, 83, 0, 0, 0, 0, 0, 0, 0,
      0, 0, 78, 1, 0, 0, 0, 83, 7, 0, 0, 0, 0, 0, 0, 0, 0] "sheetA"
    [83, 0, 0, 0, 0, 0, 0, 0, 0, 0, 78, 1, 0, 0, 0, 83, 7, 0, 0, 0, 0,
      0, 0, 0, 0] (by norm_num) (by norm_num) (by decide)
  have s2 := hS 3 0 0 "sheetA" []
    [0, 0, 0, 0, 0, 0, 0, 0, 0, 78, 1, 0, 0, 0, 83, 7, 0, 0, 0, 0, 0,
      0, 0, 0] ⟨"sheetA", 0, (0, 0), 0, []⟩
    [78, 1, 0, 0, 0, 83, 7, 0, 0, 0, 0, 0, 0, 0, 0] (by norm_num)
    (by norm_num) (by decide)
  have s3 := hN 3 1 0 (some "sheetA")
    [Tile.static ⟨"sheetA", 0, (0, 0), 0, []⟩]
    [1, 0, 0, 0, 83, 7, 0, 0, 0, 0, 0, 0, 0, 0] 1
    [83, 7, 0, 0, 0, 0, 0, 0, 0, 0] (by norm_num) (by norm_num)
    (by decide)
  have s4 := hS 3 2 0 "sheetA"
    [Tile.static ⟨"sheetA", 0, (0, 0), 0, []⟩]
    [7, 0, 0, 0, 0, 0, 0, 0, 0] ⟨"sheetA", 7, (2, 0), 0, []⟩ []
    (by norm_num) (by norm_num) (by decide)
  have s5 : scanLayerX 3 3 0 (some "sheetA")
      [Tile.static ⟨"sheetA", 0, (0, 0), 0, []⟩,
        Tile.static ⟨"sheetA", 7, (2, 0), 0, []⟩] [] =
      .ok ([Tile.static ⟨"sheetA", 0, (0, 0), 0, []⟩,
        Tile.static ⟨"sheetA", 7, (2, 0), 0, []⟩], some "sheetA") [] :=
    scanLayerX_stop (by norm_num)
  have row := ((((s1.trans s2).trans s3).trans s4).trans s5)
  unfold scanLayer
  rw [scanLayerY_step (by norm_num) row, scanLayerY_stop (by norm_num)]

/-- C1 witness: a `'T'` tag continues at the same `x`, an `'S'` tag at
`x + 1` with the tile appended, and an `'N' 3` run at `x + 3`. -/
theorem c1_witness :
    scanLayerX 2 0 0 none [] [84, 0, 0, 0, 0] =
        scanLayerX 2 0 0 (some "") [] [] ∧
      scanLayerX 2 0 0 (some "Z") [] [83, 5, 0, 0, 0, 1, 0, 0, 0, 0] =
        scanLayerX 2 1 0 (some "Z")
          [Tile.static ⟨"Z", 5, (0, 0), 1, []⟩] [] ∧
      scanLayerX 9 0 0 none [] [78, 3, 0, 0, 0] =
        scanLayerX 9 3 0 none [] [] :=
  ⟨c1_tile_stream_scan.2.1 2 0 0 none [] [0, 0, 0, 0] "" []
      (by norm_num) (by norm_num) (by decide),
   c1_tile_stream_scan.2.2.1 2 0 0 "Z" [] [5, 0, 0, 0, 1, 0, 0, 0, 0]
      ⟨"Z", 5, (0, 0), 1, []⟩ [] (by norm_num) (by norm_num)
      (by decide),
   c1_tile_stream_scan.2.2.2 9 0 0 none [] [3, 0, 0, 0] 3 []
      (by norm_num) (by norm_num) (by decide)⟩

/-- The minimal little-endian base-128 encoding named by the claim: low 7
bits per byte, continuation bit 7 set on every byte but the last. -/
def encode7 (v : Nat) : List Nat :=
  if v < 128 then [v] else (v % 128 + 128) :: encode7 (v / 128)
termination_by v
decreasing_by
  exact Nat.div_lt_self (by omega) (by norm_num)

/-- A value strictly below `2 ^ k` is bitwise disjoint from anything
shifted left by `k`, so their `or` is their sum. -/
theorem lorTwoPow (k : Nat) :
    ∀ a b : Nat, a < 2 ^ k → a ||| b <<< k = a + b <<< k := by
  induction k with
  | zero =>
    intro a b ha
    interval_cases a
    simp
  | succ k ih =>
    intro a b ha
    have hpow : (2 : Nat) ^ (k + 1) = 2 * 2 ^ k := by ring
    have hlt : a / 2 < 2 ^ k := by omega
    have hd : Nat.bit (Nat.bodd a) (a / 2) = a := by
      have h := Nat.bit_decomp a
      rwa [Nat.div2_val] at h
    have hshift : b <<< (k + 1) = Nat.bit false (b <<< k) := by
      simp only [Nat.shiftLeft_eq, Nat.bit_val, Bool.toNat_false, pow_succ]
      ring
    calc a ||| b <<< (k + 1)
        = Nat.bit (Nat.bodd a) (a / 2) ||| Nat.bit false (b <<< k) := by
          rw [hd, hshift]
      _ = Nat.bit (Nat.bodd a || false) (a / 2 ||| b <<< k) :=
          Nat.lor_bit _ _ _ _
      _ = Nat.bit (Nat.bodd a) (a / 2 + b <<< k) := by
          rw [Bool.or_false, ih _ b hlt]
      _ = a + b <<< (k + 1) := by
          have hb := Nat.bodd_add_div2 a
          rw [Nat.div2_val] at hb
          have hs2 : b <<< (k + 1) = 2 * (b <<< k) := by
            simp only [Nat.shiftLeft_eq, pow_succ]
            ring
          rw [Nat.bit_val, hs2]
          omega

/-- Unfolding of one decoder iteration of `read_7bit_encoded_int`. -/
theorem read7bitAux_cons (b : Nat) (rest : List Nat) (acc bits : Nat) :
    read7bitAux (b :: rest) acc bits =
      if 32 ≤ bits then .panic
      else if b % 256 % 128 = b % 256 then
        .ok ((acc ||| ((b % 256 % 128) <<< bits)) % 4294967296) rest
      else
        read7bitAux rest ((acc ||| ((b % 256 % 128) <<< bits)) % 4294967296)
          (bits + 7) := rfl

/-- Decoder loop invariant: started at a bit offset that is a multiple of
7 with the accumulator holding only bits below the offset, decoding the
minimal encoding of `v` adds `v` at that offset and stops exactly at the
encoding's end. -/
theorem read7bitAux_encode7 :
    ∀ (v bits acc : Nat) (rest : List Nat), 7 ∣ bits → bits ≤ 28 →
      acc < 2 ^ bits → v < 2 ^ (32 - bits) →
      read7bitAux (encode7 v ++ rest) acc bits =
        .ok (acc + v * 2 ^ bits) rest := by
  intro v
  induction v using Nat.strong_induction_on with
  | _ v ih =>
    intro bits acc rest hdiv hble ha hv
    have hP32 : 2 ^ (32 - bits) * 2 ^ bits = 4294967296 := by
      rw [← pow_add]
      have h32 : 32 - bits + bits = 32 := by omega
      rw [h32]
      norm_num
    rw [encode7]
    split
    · rename_i hlt
      have hbound : acc + v * 2 ^ bits < 4294967296 := by
        have h1 : acc + v * 2 ^ bits < 2 ^ bits + v * 2 ^ bits :=
          Nat.add_lt_add_right ha _
        have h2 : (2 : Nat) ^ bits + v * 2 ^ bits =
            (1 + v) * 2 ^ bits := by ring
        have h3 : (1 + v) * 2 ^ bits ≤ 2 ^ (32 - bits) * 2 ^ bits :=
          Nat.mul_le_mul_right _ (by omega)
        calc acc + v * 2 ^ bits < (1 + v) * 2 ^ bits := h2 ▸ h1
          _ ≤ 2 ^ (32 - bits) * 2 ^ bits := h3
          _ = 4294967296 := hP32
      rw [List.cons_append, List.nil_append, read7bitAux_cons,
        if_neg (by omega), if_pos (by omega)]
      have hm : v % 256 % 128 = v := by omega
      rw [hm, lorTwoPow bits acc v ha, Nat.shiftLeft_eq,
        Nat.mod_eq_of_lt hbound]
    · rename_i hge
      have hb21 : bits ≤ 21 := by
        by_contra hgt
        have h28 : bits = 28 := by omega
        subst h28
        norm_num at hv
        omega
      have hP7 : (2 : Nat) ^ (bits + 7) = 128 * 2 ^ bits := by
        rw [pow_add]
        ring
      have hacc2 : acc + v % 128 * 2 ^ bits < 2 ^ (bits + 7) := by
        have h1 : v % 128 * 2 ^ bits ≤ 127 * 2 ^ bits :=
          Nat.mul_le_mul_right _ (by omega)
        linarith
      have hacc2' : acc + v % 128 * 2 ^ bits < 4294967296 := by
        have h28 : (2 : Nat) ^ (bits + 7) ≤ 2 ^ 28 :=
          Nat.pow_le_pow_right (by norm_num) (by omega)
        calc acc + v % 128 * 2 ^ bits < 2 ^ (bits + 7) := hacc2
          _ ≤ 2 ^ 28 := h28
          _ ≤ 4294967296 := by norm_num
      rw [List.cons_append, read7bitAux_cons, if_neg (by omega),
        if_neg (by omega)]
      have hm : (v % 128 + 128) % 256 % 128 = v % 128 := by omega
      rw [hm, lorTwoPow bits acc (v % 128) ha, Nat.shiftLeft_eq,
        Nat.mod_eq_of_lt hacc2']
      have hdivbound : v / 128 < 2 ^ (32 - (bits + 7)) := by
        have he : 32 - bits = 7 + (32 - (bits + 7)) := by omega
        have hsplit : (2 : Nat) ^ (32 - bits) =
            128 * 2 ^ (32 - (bits + 7)) := by
          rw [he, pow_add]
          norm_num
        rw [Nat.div_lt_iff_lt_mul (by norm_num : (0 : Nat) < 128)]
        calc v < 2 ^ (32 - bits) := hv
          _ = 2 ^ (32 - (bits + 7)) * 128 := by rw [hsplit]; ring
      have hrec := ih (v / 128) (Nat.div_lt_self (by omega) (by norm_num))
        (bits + 7) (acc + v % 128 * 2 ^ bits) rest (by omega) (by omega)
        hacc2 hdivbound
      rw [hrec]
      have hval : acc + v % 128 * 2 ^ bits + v / 128 * 2 ^ (bits + 7) =
          acc + v * 2 ^ bits := by
        rw [hP7]
        have hdm : 128 * (v / 128) + v % 128 = v := Nat.div_add_mod v 128
        calc acc + v % 128 * 2 ^ bits + v / 128 * (128 * 2 ^ bits)
            = acc + (128 * (v / 128) + v % 128) * 2 ^ bits := by ring
          _ = acc + v * 2 ^ bits := by rw [hdm]
      rw [hval]

/-- C8: for every `u32` value, decoding the minimal little-endian
base-128 encoding with `read_7bit_encoded_int` returns the value and
consumes exactly the encoding. -/
theorem c8_varuint_roundtrip (v : Nat) (rest : List Nat)
    (hv : v < 4294967296) :
    read7bit (encode7 v ++ rest) = .ok v rest := by
  have h := read7bitAux_encode7 v 0 0 rest (by omega) (by omega)
    (by norm_num) (by simpa using hv)
  simpa [read7bit] using h

/-- C8 witness: the largest `u32` value round-trips through its 5-byte
minimal encoding. -/
theorem c8_witness :
    encode7 4294967295 = [255, 255, 255, 255, 15] ∧
      read7bit [255, 255, 255, 255, 15] = .ok 4294967295 [] := by
  have e1 : encode7 4294967295 = 255 :: encode7 33554431 := by
    rw [encode7]
    norm_num
  have e2 : encode7 33554431 = 255 :: encode7 262143 := by
    rw [encode7]
    norm_num
  have e3 : encode7 262143 = 255 :: encode7 2047 := by
    rw [encode7]
    norm_num
  have e4 : encode7 2047 = 255 :: encode7 15 := by
    rw [encode7]
    norm_num
  have e5 : encode7 15 = [15] := by
    rw [encode7]
    norm_num
  have henc : encode7 4294967295 ++ ([] : List Nat) =
      [255, 255, 255, 255, 15] := by
    rw [e1, e2, e3, e4, e5]
    rfl
  have h := c8_varuint_roundtrip 4294967295 [] (by norm_num)
  rw [henc] at h
  exact ⟨by simpa using henc, h⟩

end Xnb
